import Mathlib

/-!
Verification of the rlox tree-walking interpreter (lexer, resolver,
environment, evaluator) against its specification.

The embedding follows the source crates:
  * `ast` (Token, Literal, Expr, Stmt),
  * `interpreter/src/resolver.rs` (Resolver),
  * `interpreter/src/environment.rs` (`v2::Environment`, shared through
    `Rc` by `interpreter.rs`; modelled as a store of frames addressed by
    index, a frame being a name-to-value map plus an optional enclosing
    frame reference),
  * `interpreter/src/interpreter.rs`, `callable.rs`, `function.rs`,
    `native.rs`, `value.rs` (the evaluator),
  * `src/scanner.rs` (the lexer).

Rust `f64` numbers are modelled as `Rat`: every property proved here is
about control flow, scoping and the error channel, none depends on
IEEE-754 rounding.  Rust `HashMap`s are modelled as association lists
whose `insert` replaces in place, which preserves the observations the
code makes of them (`get`, `contains_key`, `insert`).  `ProcessUniqueId`
(node identities of `Variable`/`Assign`, function identities) is
modelled as `Nat`.

The `class` statement is omitted from the embedded syntax: the evaluator
in `interpreter.rs` has no arm for `Stmt::Class`, so programs containing
it are outside the executable fragment (the spec treats classes as
stubs / non-goals, section 9).
-/

namespace RLox

/-! ## Association-list maps (model of `HashMap` observations) -/

/-- Insert-or-replace keeping key order: the model of `HashMap::insert`. -/
def upsert {α β : Type} [DecidableEq α] : List (α × β) → α → β → List (α × β)
  | [], k, v => [(k, v)]
  | (k0, v0) :: rest, k, v =>
      if k = k0 then (k, v) :: rest else (k0, v0) :: upsert rest k v

/-- Lookup: the model of `HashMap::get`. -/
def alookup {α β : Type} [DecidableEq α] : List (α × β) → α → Option β
  | [], _ => none
  | (k0, v0) :: rest, k => if k = k0 then some v0 else alookup rest k

/-- The model of `HashMap::contains_key`. -/
def hasKey {α β : Type} [DecidableEq α] (m : List (α × β)) (k : α) : Bool :=
  (alookup m k).isSome

/-! ## Token model (`ast/src/token.rs`) -/

inductive TokenType where
  | leftParen | rightParen | leftBrace | rightBrace
  | comma | dot | minus | plus | semicolon | slash | star
  | bang | bangEqual | equal | equalEqual
  | greater | greaterEqual | less | lessEqual
  | identifier | stringTok | numberTok
  | andKw | classKw | elseKw | falseKw | funKw | forKw | ifKw | nilKw | orKw
  | printKw | returnKw | superKw | thisKw | trueKw | varKw | whileKw
  | eof
  deriving DecidableEq, Repr

/-- `token::Literal`; `Number(f64)` is modelled over `Rat`. -/
inductive Literal where
  | String (s : String)
  | Number (q : Rat)
  | True
  | False
  | Nil
  deriving DecidableEq, Repr

structure Token where
  token_type : TokenType
  lexeme : String
  line : Nat
  literal : Option Literal
  deriving DecidableEq, Repr

/-! ## AST (`ast` crate, reconstructed from its uses in `resolver.rs`,
`interpreter.rs` and `parser/src/lib.rs`; `ScopeId` is the per-node
identity, a fresh integer at construction per spec section 3) -/

inductive Expr where
  | Assign (name : Token) (value : Expr) (scope_id : Nat)
  | Binary (left : Expr) (operator : Token) (right : Expr)
  | Call (callee : Expr) (paren : Token) (arguments : List Expr)
  | Grouping (expression : Expr)
  | Literal (value : Literal)
  | Logical (left : Expr) (operator : Token) (right : Expr)
  | Unary (operator : Token) (right : Expr)
  | Variable (name : Token) (scope_id : Nat)
  deriving Repr

inductive Stmt where
  | Block (statements : List Stmt)
  | Expr (expression : Expr)
  | Fun (name : Token) (parameters : List Token) (body : List Stmt)
  | If (condition : Expr) (then_branch : Stmt) (else_branch : Option Stmt)
  | Print (expression : Expr)
  | Return (keyword : Token) (value : Option Expr)
  | Var (name : Token) (init : Option Expr)
  | While (condition : Expr) (body : Stmt)
  deriving Repr

/-! ## Resolver (`interpreter/src/resolver.rs`)

The Rust `scopes` is a `Vec` whose *last* element is the innermost
scope; here `scopes` is a list whose *head* is the innermost scope
(push = cons), so Rust index `i` corresponds to list position
`scopes.length - 1 - i` and the hop count `scopes.len() - 1 - index`
recorded by `resolve_local` is exactly the position, counted from the
head, of the first scope containing the name. -/

structure ResolverError where
  line : Nat
  msg : String
  deriving DecidableEq, Repr

inductive FunType where
  | Function
  deriving DecidableEq, Repr

structure RState where
  current_fun : Option FunType
  scopes : List (List (String × Bool))
  locals : List (Nat × Nat)
  deriving DecidableEq, Repr

def RState.new : RState := ⟨none, [], []⟩

def pushScope (r : RState) : RState :=
  { r with scopes := [] :: r.scopes }

def popScope (r : RState) : RState :=
  { r with scopes := r.scopes.tail }

/-- `Resolver::declare`: error on a duplicate in the innermost scope,
otherwise insert the name with `defined? = false`. -/
def declare (r : RState) (tok : Token) : RState × Option ResolverError :=
  match r.scopes with
  | [] => (r, none)
  | sc :: rest =>
      if hasKey sc tok.lexeme then
        (r, some ⟨tok.line, "Variable with this name already declared in this scope."⟩)
      else
        ({ r with scopes := upsert sc tok.lexeme false :: rest }, none)

/-- `Resolver::define`: mark the name `defined? = true` in the innermost scope. -/
def define (r : RState) (tok : Token) : RState :=
  match r.scopes with
  | [] => r
  | sc :: rest => { r with scopes := upsert sc tok.lexeme true :: rest }

/-- The position of the first list element satisfying `p`. -/
def depthOf {α : Type} (p : α → Bool) : List α → Option Nat
  | [] => none
  | a :: l => if p a then some 0 else (depthOf p l).map (· + 1)

/-- `Resolver::resolve_local`: record, under the node identity, the
distance from the innermost scope to the first scope containing the
name (the Rust loop walks `Vec` indices `len-1` down to `0` and stores
`len - 1 - index`, which is that distance); record nothing when no
scope contains it. -/
def resolveLocal (r : RState) (scope_id : Nat) (name : String) : RState :=
  match depthOf (fun sc => hasKey sc name) r.scopes with
  | some i => { r with locals := upsert r.locals scope_id i }
  | none => r

/-- The Rust `?` operator on resolver results: on success continue with
the updated state, on error return it at once — later mutations of the
construct (including `pop_scope` and the restore of `current_fun`) are
then skipped, as in the source. -/
def andThen (step : RState × Option ResolverError)
    (k : RState → RState × Option ResolverError) : RState × Option ResolverError :=
  match step with
  | (r1, none) => k r1
  | (r1, some e) => (r1, some e)

/-- The parameter loop of `resolve_function`. -/
def resolveParams (r : RState) : List Token → RState × Option ResolverError
  | [] => (r, none)
  | p :: rest =>
      andThen (declare r p) fun r1 => resolveParams (define r1 p) rest

mutual

/-- `Resolver::visit_expr`. -/
def resolveExpr (r : RState) : Expr → RState × Option ResolverError
  | .Assign name value scope_id =>
      andThen (resolveExpr r value) fun r1 =>
        (resolveLocal r1 scope_id name.lexeme, none)
  | .Binary l _ rr =>
      andThen (resolveExpr r l) fun r1 => resolveExpr r1 rr
  | .Call callee _ args =>
      andThen (resolveExpr r callee) fun r1 => resolveExprs r1 args
  | .Grouping e => resolveExpr r e
  | .Literal _ => (r, none)
  | .Logical l _ rr =>
      andThen (resolveExpr r l) fun r1 => resolveExpr r1 rr
  | .Unary _ rr => resolveExpr r rr
  | .Variable name scope_id =>
      match r.scopes with
      | sc :: _ =>
          if alookup sc name.lexeme = some false then
            (r, some ⟨name.line, "Cannot read local variable in its own intializer."⟩)
          else
            (resolveLocal r scope_id name.lexeme, none)
      | [] => (resolveLocal r scope_id name.lexeme, none)
termination_by structural e => e

/-- The argument loop of the `Expr::Call` arm. -/
def resolveExprs (r : RState) : List Expr → RState × Option ResolverError
  | [] => (r, none)
  | e :: rest =>
      andThen (resolveExpr r e) fun r1 => resolveExprs r1 rest
termination_by structural es => es

end

/-- `Resolver::resolve_function` (always called with
`FunType::Function`), parameterized by the resolution of the body so
that the recursion over the nested `body` list stays structural at the
call site in `visit_stmt`: saves `current_fun`, pushes the parameter
scope, declares and defines each parameter, resolves the body, then
pops the scope and restores `current_fun` — the last two skipped on
error, as in the source. -/
def resolveFunctionBody (r : RState) (params : List Token)
    (kbody : RState → RState × Option ResolverError) :
    RState × Option ResolverError :=
  let enclosing := r.current_fun
  andThen (resolveParams (pushScope { r with current_fun := some FunType.Function })
      params) fun r1 =>
    andThen (kbody r1) fun r2 =>
      ({ popScope r2 with current_fun := enclosing }, none)

mutual

/-- `Resolver::visit_stmt`. -/
def resolveStmt (r : RState) : Stmt → RState × Option ResolverError
  | .Block stmts =>
      andThen (resolveStmts (pushScope r) stmts) fun r1 => (popScope r1, none)
  | .Expr e => resolveExpr r e
  | .Fun name params body =>
      andThen (declare r name) fun r1 =>
        resolveFunctionBody (define r1 name) params
          (fun r2 => resolveStmts r2 body)
  | .If cond thenB elseB =>
      andThen (resolveExpr r cond) fun r1 =>
        andThen (resolveStmt r1 thenB) fun r2 =>
          match elseB with
          | some eb => resolveStmt r2 eb
          | none => (r2, none)
  | .Print e => resolveExpr r e
  | .Return keyword value =>
      match r.current_fun, value with
      | none, _ => (r, some ⟨keyword.line, "Cannot return from top-level code."⟩)
      | some _, some v => resolveExpr r v
      | some _, none => (r, none)
  | .Var name init =>
      andThen (declare r name) fun r1 =>
        match init with
        | some i => andThen (resolveExpr r1 i) fun r2 => (define r2 name, none)
        | none => (define r1 name, none)
  | .While cond body =>
      andThen (resolveExpr r cond) fun r1 => resolveStmt r1 body
termination_by structural s => s

/-- The statement loop of a block / function body (`?` on each element). -/
def resolveStmts (r : RState) : List Stmt → RState × Option ResolverError
  | [] => (r, none)
  | s :: rest =>
      andThen (resolveStmt r s) fun r1 => resolveStmts r1 rest
termination_by structural ss => ss

end

/-- The top-level statement loop of `Resolver::resolve`: errors are
collected and resolution continues with the state as left by the
failing statement. -/
def resolveTop (r : RState) : List Stmt → RState × List ResolverError
  | [] => (r, [])
  | s :: rest =>
      match resolveStmt r s with
      | (r1, none) => resolveTop r1 rest
      | (r1, some e) =>
          let (r2, es) := resolveTop r1 rest
          (r2, e :: es)

/-- `Resolver::resolve` run on a fresh resolver (as `Interpreter::new` +
`run` do): push the top-level scope, resolve every statement collecting
errors, pop. -/
def resolveProgram (stmts : List Stmt) : RState × List ResolverError :=
  let (r1, errs) := resolveTop (pushScope RState.new) stmts
  (popScope r1, errs)

/-! ## Runtime values (`value.rs`, `function.rs`)

`Value::Class` is omitted together with the `class` statement.  A
`NativeFunction` holds a host closure (`Rc<dyn Fn>`); the registry
(`native.rs`) contains exactly `clock`, whose host closure reads the
wall clock, modelled below by the interpreter-state field
`clock_time`.  Its Rust `PartialEq` compares by name and arity, which
the tag carries. -/

structure NativeFn where
  name : String
  arity : Nat
  deriving DecidableEq, Repr

/-- `LoxFunction`: the declaration (name, parameters, body), a fresh
identity, and the environment captured at declaration (a frame
reference; `None` mirrors the `Option<Rc<Environment>>` field). -/
structure LoxFunction where
  name : Token
  parameters : List Token
  body : List Stmt
  id : Nat
  closure : Option Nat
  deriving Repr

inductive Value where
  | nil
  | boolean (b : Bool)
  | number (q : Rat)
  | string (s : String)
  | function (fn : LoxFunction)
  | nativeFunction (nf : NativeFn)
  deriving Repr

/-- `Value::print` (the canonical string form used by `print`). -/
def Value.print : Value → String
  | .nil => "nil"
  | .boolean b => toString b
  | .number q => toString q
  | .string s => s
  | .function fn => "<fun " ++ fn.name.lexeme ++ ">"
  | .nativeFunction nf => "<native fun " ++ nf.name ++ ">"

/-- `is_truthy`: everything but `nil` and `false` is truthy. -/
def is_truthy : Value → Bool
  | .nil => false
  | .boolean b => b
  | _ => true

/-- `is_equal`: same-variant compare by value (functions by identity,
natives by name and arity), different variants unequal. -/
def is_equal : Value → Value → Bool
  | .boolean a, .boolean b => a == b
  | .boolean _, _ => false
  | .function a, .function b => a.id == b.id
  | .function _, _ => false
  | .nil, .nil => true
  | .nil, _ => false
  | .number a, .number b => a == b
  | .number _, _ => false
  | .string a, .string b => a == b
  | .string _, _ => false
  | .nativeFunction a, .nativeFunction b => a.name == b.name && a.arity == b.arity
  | .nativeFunction _, _ => false

/-! ## Environment store

`interpreter.rs` shares environments through `Rc` with interior
mutability and the claims cite the `v2::Environment` operations: a
frame is a name-to-value map plus an optional enclosing frame.  The
embedding keeps all frames in one store (`frames`), a frame reference
being an index; sharing an `Rc` is sharing an index.  New frames only
ever point at existing ones, so reference chains strictly decrease and
the chain walks below terminate on a fuel of `frames.length + 1`;
running out of fuel or dereferencing a dangling index cannot happen for
stores the evaluator builds and surfaces as `"invalid environment"`. -/

structure Frame where
  values : List (String × Value)
  enclosing : Option Nat
  deriving Repr

/-- Interpreter state: the frame store, the current environment
(`Interpreter::environment`), the resolver output map, the
`ProcessUniqueId` counter for function values, the wall clock read by
the `clock` native, and collected `print` output. -/
structure IState where
  frames : List Frame
  env : Option Nat
  locals : List (Nat × Nat)
  next_id : Nat
  clock_time : Rat
  output : List String
  deriving Repr

/-- Allocate a frame (`Environment::new(enclosing)` behind `Rc::new`):
returns the new reference. -/
def newFrame (st : IState) (enclosing : Option Nat) : IState × Nat :=
  ({ st with frames := st.frames ++ [⟨[], enclosing⟩] }, st.frames.length)

/-- `v2::Environment::define` on the frame `ref`. -/
def frameDefine (st : IState) (ref : Nat) (name : String) (v : Value) : IState :=
  match st.frames.get? ref with
  | none => st
  | some fr =>
      { st with frames := st.frames.set ref { fr with values := upsert fr.values name v } }

/-- `v2::Environment::get`: this frame, else delegate to the enclosing one. -/
def envGetAux (st : IState) : Nat → Nat → String → Option Value
  | 0, _, _ => none
  | fuel + 1, ref, name =>
      match st.frames.get? ref with
      | none => none
      | some fr =>
          match alookup fr.values name with
          | some v => some v
          | none =>
              match fr.enclosing with
              | some p => envGetAux st fuel p name
              | none => none

def envGet (st : IState) (ref : Nat) (name : String) : Option Value :=
  envGetAux st (st.frames.length + 1) ref name

/-- `v2::Environment::get_at`: walk exactly `distance` enclosing steps,
then `get` on that frame. -/
def envGetAt (st : IState) (ref : Nat) (name : String) : Nat → Option Value
  | 0 => envGet st ref name
  | d + 1 =>
      match st.frames.get? ref with
      | none => none
      | some fr =>
          match fr.enclosing with
          | some p => envGetAt st p name d
          | none => none

/-- `v2::Environment::assign`: overwrite where present, else delegate;
at the outermost frame a missing name is the runtime error message. -/
def envAssignAux (st : IState) : Nat → Nat → String → Value → Except String IState
  | 0, _, _, _ => .error "invalid environment"
  | fuel + 1, ref, name, v =>
      match st.frames.get? ref with
      | none => .error "invalid environment"
      | some fr =>
          if hasKey fr.values name then
            .ok { st with
                  frames := st.frames.set ref { fr with values := upsert fr.values name v } }
          else
            match fr.enclosing with
            | some p => envAssignAux st fuel p name v
            | none => .error ("Undefined variable '" ++ name ++ "'.")

def envAssign (st : IState) (ref : Nat) (name : String) (v : Value) : Except String IState :=
  envAssignAux st (st.frames.length + 1) ref name v

/-- `v2::Environment::assign_at` (its missing-enclosing message has no
final period in the source, unlike `assign`). -/
def envAssignAt (st : IState) (ref : Nat) (name : String) (v : Value) :
    Nat → Except String IState
  | 0 => envAssign st ref name v
  | d + 1 =>
      match st.frames.get? ref with
      | none => .error "invalid environment"
      | some fr =>
          match fr.enclosing with
          | some p => envAssignAt st p name v d
          | none => .error ("Undefined variable '" ++ name ++ "'")

/-! ## Evaluator (`interpreter.rs`, `callable.rs`, `function.rs`) -/

/-- A runtime outcome: a `RuntimeError` with its line, a Rust `panic!`
(also produced by `.unwrap()` on `None`), or fuel exhaustion of the
embedding (no source counterpart; theorems always supply enough). -/
inductive IErr where
  | rt (line : Nat) (msg : String)
  | panicked (msg : String)
  | noFuel
  deriving DecidableEq, Repr

/-- `InterpreterResult = Result<Option<Value>, RuntimeError>`:
`ok none` is normal completion, `ok (some v)` the return-signal. -/
abbrev IRes := Except IErr (Option Value)

/-- `runtime_error_result`. -/
def rtErr (tok : Token) (msg : String) : IRes :=
  .error (.rt tok.line msg)

/-- `Literal` to runtime value (the `Expr::Literal` arm). -/
def literalValue : Literal → Value
  | .Nil => .nil
  | .True => .boolean true
  | .False => .boolean false
  | .Number q => .number q
  | .String s => .string s

/-- `eval_binary_expr`: equality first; otherwise numbers admit
arithmetic and comparisons, strings admit `+` (concatenation); a
mismatched right operand or a non-number non-string left operand is a
runtime error; any other combination hits the source's `panic!`. -/
def eval_binary_expr (operator : Token) (left right : Value) : IRes :=
  match operator.token_type with
  | .equalEqual => .ok (some (.boolean (is_equal left right)))
  | .bangEqual => .ok (some (.boolean (!is_equal left right)))
  | _ =>
      match left with
      | .number l =>
          match right with
          | .number r =>
              match operator.token_type with
              | .plus => .ok (some (.number (l + r)))
              | .minus => .ok (some (.number (l - r)))
              | .star => .ok (some (.number (l * r)))
              | .slash => .ok (some (.number (l / r)))
              | .greater => .ok (some (.boolean (decide (l > r))))
              | .greaterEqual => .ok (some (.boolean (decide (l ≥ r))))
              | .less => .ok (some (.boolean (decide (l < r))))
              | .lessEqual => .ok (some (.boolean (decide (l ≤ r))))
              | _ => .error (.panicked "Invalid binary expression. This is an uncaught parse error")
          | _ => rtErr operator "Right operand must be a Number."
      | .string l =>
          match right with
          | .string r =>
              match operator.token_type with
              | .plus => .ok (some (.string (l ++ r)))
              | _ => .error (.panicked "Invalid binary expression. This is an uncaught parse error")
          | _ => rtErr operator "Right operand must be a String."
      | _ => rtErr operator "Left operand must be a Number or a String."

/-- `Interpreter::look_up_var`: with a recorded distance use `get_at`,
otherwise `get` from the current environment; a missing current
environment yields `None` (the source's `else` branch). -/
def look_up_var (st : IState) (name : String) (scope_id : Nat) : Option Value :=
  match st.env with
  | none => none
  | some e =>
      match alookup st.locals scope_id with
      | some d => envGetAt st e name d
      | none => envGet st e name

/-- `Interpreter::assign_var` (the current environment is unwrapped:
`none` would be a Rust panic). -/
def assign_var (st : IState) (name : String) (v : Value) (scope_id : Nat) :
    Except IErr (Except String IState) :=
  match st.env with
  | none => .error (.panicked "called Option::unwrap() on a None value")
  | some e =>
      match alookup st.locals scope_id with
      | some d => .ok (envAssignAt st e name v d)
      | none => .ok (envAssign st e name v)

/-- `Interpreter::define_var` (unwraps the current environment). -/
def define_var (st : IState) (name : String) (v : Value) : Except IErr IState :=
  match st.env with
  | none => .error (.panicked "called Option::unwrap() on a None value")
  | some e => .ok (frameDefine st e name v)

/-- The `clock` native's host closure (`native.rs`), reading the
modelled wall clock; no other native is ever registered. -/
def callNative (st : IState) (nf : NativeFn) (_args : List Value) : Value :=
  if nf.name = "clock" then .number st.clock_time else .nil

/-- The message of a Rust `.unwrap()` panic on `None`. -/
def unwrapMsg : String := "called Option::unwrap() on a None value"

/-- The Rust `?` operator on `InterpreterResult`s. -/
def bindRes (step : IState × IRes) (k : IState → Option Value → IState × IRes) :
    IState × IRes :=
  match step with
  | (st, .error err) => (st, .error err)
  | (st, .ok ov) => k st ov

/-- `(self.visit_expr(..)?).unwrap()` (at the `If` condition the source
panics with its own message instead of unwrapping): propagate an error,
panic on a missing value, continue with the value. -/
def bindSome {δ : Type} (step : IState × IRes) (msg : String)
    (k : IState → Value → IState × Except IErr δ) : IState × Except IErr δ :=
  match step with
  | (st, .error err) => (st, .error err)
  | (st, .ok none) => (st, .error (.panicked msg))
  | (st, .ok (some v)) => k st v

/-- The statement sequencing of `execute_block` and `While`: normal
completion continues, a return-signal or an error stops. -/
def seqStmt (step : IState × IRes) (k : IState → IState × IRes) : IState × IRes :=
  match step with
  | (st, .error err) => (st, .error err)
  | (st, .ok (some v)) => (st, .ok (some v))
  | (st, .ok none) => k st

/-- The Rust `?` operator on a stateful `Result` of any payload. -/
def bindRes2 {γ δ : Type} (step : IState × Except IErr γ)
    (k : IState → γ → IState × Except IErr δ) : IState × Except IErr δ :=
  match step with
  | (st, .error err) => (st, .error err)
  | (st, .ok x) => k st x

mutual

/-- `Interpreter::visit_stmt`. -/
def evalStmt : Nat → IState → Stmt → IState × IRes
  | 0, st, _ => (st, .error .noFuel)
  | f + 1, st, stmt =>
      match stmt with
      | .Block stmts =>
          execute_block f (newFrame st st.env).1 stmts (newFrame st st.env).2
      | .Expr e =>
          bindRes (evalExpr f st e) fun st1 _ => (st1, .ok none)
      | .Fun name params body =>
          let fn : LoxFunction := ⟨name, params, body, st.next_id, st.env⟩
          let st1 := { st with next_id := st.next_id + 1 }
          match define_var st1 name.lexeme (.function fn) with
          | .error err => (st1, .error err)
          | .ok st2 => (st2, .ok none)
      | .If cond thenB elseB =>
          bindSome (evalExpr f st cond) "Expression should always return a value"
            fun st1 c =>
              if is_truthy c then evalStmt f st1 thenB
              else
                match elseB with
                | some eb => evalStmt f st1 eb
                | none => (st1, .ok none)
      | .Print e =>
          bindSome (evalExpr f st e) unwrapMsg fun st1 v =>
            ({ st1 with output := st1.output ++ [v.print] }, .ok none)
      | .Return _ value =>
          match value with
          | some e => bindRes (evalExpr f st e) fun st1 ov => (st1, .ok ov)
          | none => (st, .ok (some .nil))
      | .Var name init =>
          match init with
          | some e =>
              bindSome (evalExpr f st e) unwrapMsg fun st1 v =>
                match define_var st1 name.lexeme v with
                | .error err => (st1, .error err)
                | .ok st2 => (st2, .ok none)
          | none =>
              match define_var st name.lexeme .nil with
              | .error err => (st, .error err)
              | .ok st1 => (st1, .ok none)
      | .While cond body =>
          bindSome (evalExpr f st cond) unwrapMsg fun st1 c =>
            if is_truthy c then
              seqStmt (evalStmt f st1 body) fun st2 =>
                evalStmt f st2 (.While cond body)
            else (st1, .ok none)

/-- `Interpreter::execute_block`: swap in the given environment, run the
statements short-circuiting on a return-signal or error, and restore
the previous environment on every exit path. -/
def execute_block : Nat → IState → List Stmt → Nat → IState × IRes
  | 0, st, _, _ => (st, .error .noFuel)
  | f + 1, st, stmts, ref =>
      let previous := st.env
      let out := evalStmts f { st with env := some ref } stmts
      ({ out.1 with env := previous }, out.2)

/-- The statement loop of `execute_block`: `Ok(None)` continues,
`Ok(Some v)` and `Err` stop. -/
def evalStmts : Nat → IState → List Stmt → IState × IRes
  | 0, st, _ => (st, .error .noFuel)
  | _, st, [] => (st, .ok none)
  | f + 1, st, s :: rest =>
      seqStmt (evalStmt f st s) fun st1 => evalStmts f st1 rest

/-- `Interpreter::visit_expr`. -/
def evalExpr : Nat → IState → Expr → IState × IRes
  | 0, st, _ => (st, .error .noFuel)
  | f + 1, st, expr =>
      match expr with
      | .Assign name value scope_id =>
          bindSome (evalExpr f st value) unwrapMsg fun st1 v =>
            match assign_var st1 name.lexeme v scope_id with
            | .error err => (st1, .error err)
            | .ok (.ok st2) => (st2, .ok (some v))
            | .ok (.error msg) => (st1, rtErr name msg)
      | .Binary l op r =>
          bindRes (evalExpr f st l) fun st1 lv =>
            bindRes (evalExpr f st1 r) fun st2 rv =>
              match lv, rv with
              | some lv, some rv => (st2, eval_binary_expr op lv rv)
              | _, _ => (st2, .error (.panicked unwrapMsg))
      | .Call callee paren args =>
          bindRes (evalExpr f st callee) fun st1 cv =>
            bindRes2 (evalArgs f st1 args) fun st2 argv =>
              match cv with
              | none => (st2, .error (.panicked unwrapMsg))
              | some c => doCall f st2 paren c argv
      | .Grouping e => evalExpr f st e
      | .Literal lit => (st, .ok (some (literalValue lit)))
      | .Logical l op r =>
          bindSome (evalExpr f st l) unwrapMsg fun st1 lv =>
            match op.token_type with
            | .orKw =>
                if is_truthy lv then (st1, .ok (some lv))
                else evalExpr f st1 r
            | .andKw =>
                if !is_truthy lv then (st1, .ok (some lv))
                else evalExpr f st1 r
            | _ =>
                (st1, .error (.panicked "Invalid logical expression. This is an uncaught parse error."))
      | .Unary op r =>
          bindSome (evalExpr f st r) unwrapMsg fun st1 rv =>
            match op.token_type with
            | .minus =>
                match rv with
                | .number n => (st1, .ok (some (.number (-n))))
                | _ => (st1, rtErr op "Operand must be a number.")
            | .bang => (st1, .ok (some (.boolean (!is_truthy rv))))
            | _ =>
                (st1, .error (.panicked "Invalid unary expression. This is an uncaught parse error."))
      | .Variable name scope_id =>
          match look_up_var st name.lexeme scope_id with
          | some v => (st, .ok (some v))
          | none => (st, rtErr name ("Undefined variable '" ++ name.lexeme ++ "'"))

/-- The argument loop of the `Expr::Call` arm (left to right, each
result unwrapped). -/
def evalArgs : Nat → IState → List Expr → IState × Except IErr (List Value)
  | 0, st, _ => (st, .error .noFuel)
  | _, st, [] => (st, .ok [])
  | f + 1, st, e :: rest =>
      bindSome (evalExpr f st e) unwrapMsg fun st1 v =>
        bindRes2 (evalArgs f st1 rest) fun st2 vs => (st2, .ok (v :: vs))

/-- The dispatch at the end of the `Expr::Call` arm combined with the
generic `callable::call`: a `Function` or `NativeFunction` value goes
through the arity check and is invoked, anything else is the
"Can only call functions and classes." error. -/
def doCall : Nat → IState → Token → Value → List Value → IState × IRes
  | 0, st, _, _, _ => (st, .error .noFuel)
  | f + 1, st, paren, callee, args =>
      match callee with
      | .function fn =>
          if fn.parameters.length ≠ args.length then
            (st, .error (.rt paren.line
              ("Expected " ++ toString fn.parameters.length ++ " arguments but got "
                ++ toString args.length ++ ".")))
          else
            loxFunctionCall f st fn args
      | .nativeFunction nf =>
          if nf.arity ≠ args.length then
            (st, .error (.rt paren.line
              ("Expected " ++ toString nf.arity ++ " arguments but got "
                ++ toString args.length ++ ".")))
          else
            (st, .ok (some (callNative st nf args)))
      | _ => (st, rtErr paren "Can only call functions and classes.")

/-- `LoxFunction::call`: a fresh environment enclosing the captured
closure, parameters bound to arguments, the body run as a block; normal
completion becomes `nil`. -/
def loxFunctionCall : Nat → IState → LoxFunction → List Value → IState × IRes
  | 0, st, _, _ => (st, .error .noFuel)
  | f + 1, st, fn, args =>
      let st1 := (newFrame st fn.closure).1
      let ref := (newFrame st fn.closure).2
      let st2 := (fn.parameters.zip args).foldl
        (fun acc pv => frameDefine acc ref pv.1.lexeme pv.2) st1
      match execute_block f st2 fn.body ref with
      | (st3, .ok none) => (st3, .ok (some .nil))
      | (st3, res) => (st3, res)

end

/-- The globals created by `Interpreter::new`: a single frame seeded by
`define_native_functions`, which registers exactly `clock` (arity 0). -/
def initState (locals : List (Nat × Nat)) : IState :=
  { frames := [⟨[("clock", .nativeFunction ⟨"clock", 0⟩)], none⟩]
    env := some 0
    locals := locals
    next_id := 0
    clock_time := 0
    output := [] }

/-- The statement loop of `Interpreter::run`: runtime errors are
collected and execution continues with the next top-level statement. -/
def runTop (f : Nat) (st : IState) : List Stmt → IState × List IErr
  | [] => (st, [])
  | s :: rest =>
      match evalStmt f st s with
      | (st1, .ok _) => runTop f st1 rest
      | (st1, .error err) =>
          let (st2, errs) := runTop f st1 rest
          (st2, err :: errs)

/-- `Interpreter::run`: resolve first and stop on resolver errors,
otherwise evaluate every top-level statement with the resolver's
`locals` map, collecting runtime errors. -/
def interpRun (stmts : List Stmt) (fuel : Nat) :
    Except (List ResolverError) (IState × List IErr) :=
  match resolveProgram stmts with
  | (_, e :: es) => .error (e :: es)
  | (r, []) => .ok (runTop fuel (initState r.locals) stmts)

/-! ## Lexer (`src/scanner.rs`)

The source string is a list of characters (the Rust code itself indexes
by `chars().nth`).  Note the source's `is_at_end` is
`current >= source_len - 1`: the subtraction is `usize` arithmetic,
which the embedding renders as truncated `Nat` subtraction; for an
empty source the Rust expression underflows (a panic in debug builds),
a case no theorem below touches. -/

inductive ScanErr where
  | unexpectedChar (line : Nat)
  | unterminatedString (line : Nat)
  deriving DecidableEq, Repr

structure SState where
  source : List Char
  source_len : Nat
  tokens : List Token
  start : Nat
  current : Nat
  line : Nat
  deriving Repr

def SState.new (source : List Char) : SState :=
  ⟨source, source.length, [], 0, 0, 1⟩

/-- `Scanner::is_at_end` (the off-by-one `source_len - 1` is the
source's). -/
def SState.is_at_end (s : SState) : Bool :=
  s.current ≥ s.source_len - 1

/-- `Scanner::char_at` (`.nth(i).unwrap()`; every call site below is in
bounds whenever the scanner runs on a nonempty source). -/
def SState.char_at (s : SState) (i : Nat) : Char :=
  s.source.getD i ' '

def SState.advance (s : SState) : SState × Char :=
  let s1 := { s with current := s.current + 1 }
  (s1, s1.char_at (s1.current - 1))

def SState.peek (s : SState) : Char :=
  if s.is_at_end then '\x00' else s.char_at s.current

def SState.peek_next (s : SState) : Char :=
  if s.current + 1 ≥ s.source_len then '\x00' else s.char_at (s.current + 1)

def SState.next_match (s : SState) (expected : Char) : SState × Bool :=
  if s.is_at_end then (s, false)
  else if s.char_at s.current ≠ expected then (s, false)
  else ({ s with current := s.current + 1 }, true)

def SState.next_match_else (s : SState) (expected : Char)
    (expected_token else_token : TokenType) : SState × TokenType :=
  if s.is_at_end then (s, else_token)
  else if s.char_at s.current ≠ expected then (s, else_token)
  else ({ s with current := s.current + 1 }, expected_token)

/-- `substr(source, start, end)`. -/
def substr (source : List Char) (start stop : Nat) : String :=
  ((source.drop start).take (stop - start)).asString

def SState.add_token (s : SState) (tt : TokenType) (lit : Option Literal) : SState :=
  let lexeme := substr s.source s.start s.current
  { s with tokens := s.tokens ++ [⟨tt, lexeme, s.line, lit⟩] }

def is_digit (c : Char) : Bool :=('0' ≤ c) && (c ≤ '9')

def is_alpha (c : Char) : Bool :=
  (('a' ≤ c) && (c ≤ 'z')) || (('A' ≤ c) && (c ≤ 'Z')) || (c = '_')

def is_alphanumeric (c : Char) : Bool := is_alpha c || is_digit c

/-- The keyword table of `keywords_map`. -/
def keyword? : String → Option TokenType
  | "and" => some .andKw
  | "class" => some .classKw
  | "else" => some .elseKw
  | "false" => some .falseKw
  | "for" => some .forKw
  | "fun" => some .funKw
  | "if" => some .ifKw
  | "nil" => some .nilKw
  | "or" => some .orKw
  | "print" => some .printKw
  | "return" => some .returnKw
  | "super" => some .superKw
  | "this" => some .thisKw
  | "true" => some .trueKw
  | "var" => some .varKw
  | "while" => some .whileKw
  | _ => none

/-- The scan loop of `Scanner::handle_string_literal` (advance until a
closing quote or the end of input, counting newlines). -/
def stringLoop : Nat → SState → SState
  | 0, s => s
  | f + 1, s =>
      if s.peek ≠ '"' && !s.is_at_end then
        let s := if s.peek = '\n' then { s with line := s.line + 1 } else s
        stringLoop f { s with current := s.current + 1 }
      else s

/-- `Scanner::handle_string_literal`. -/
def handle_string_literal (s : SState) : SState × Option ScanErr :=
  let s := stringLoop (s.source_len + 1) s
  if s.is_at_end then
    (s, some (.unterminatedString s.line))
  else
    let s := { s with current := s.current + 1 }
    let value := substr s.source (s.start + 1) (s.current - 1)
    (s.add_token .stringTok (some (.String value)), none)

def digitLoop : Nat → SState → SState
  | 0, s => s
  | f + 1, s =>
      if is_digit s.peek then digitLoop f { s with current := s.current + 1 } else s

/-- The numeric value of a decimal digit string, as `parse::<f64>()`
produces for the grammar the scanner admits (digits, optionally a point
and digits). -/
def digitsVal (cs : List Char) : Rat :=
  cs.foldl (fun acc c => acc * 10 + (c.toNat - '0'.toNat : Nat)) 0

def parseNumber (cs : List Char) : Rat :=
  match cs.splitOn '.' with
  | [ip] => digitsVal ip
  | [ip, fp] => digitsVal ip + digitsVal fp / (10 ^ fp.length : Rat)
  | _ => 0

/-- `Scanner::handle_number_literal`. -/
def handle_number_literal (s : SState) : SState × Option ScanErr :=
  let s := digitLoop (s.source_len + 1) s
  let s :=
    if s.peek = '.' && is_digit s.peek_next then
      digitLoop (s.source_len + 1) { s with current := s.current + 1 }
    else s
  let val := (s.source.drop s.start).take (s.current - s.start)
  (s.add_token .numberTok (some (.Number (parseNumber val))), none)

/-- `Scanner::handle_identifier`. -/
def handle_identifier (s : SState) : SState × Option ScanErr :=
  let s := (fun f => alphaLoop f s) (s.source_len + 1)
  let text := substr s.source s.start s.current
  let tt := match keyword? text with
    | some k => k
    | none => .identifier
  (s.add_token tt none, none)
where
  alphaLoop : Nat → SState → SState
    | 0, s => s
    | f + 1, s =>
        if is_alphanumeric s.peek then alphaLoop f { s with current := s.current + 1 }
        else s

/-- The comment loop of the `/` arm. -/
def commentLoop : Nat → SState → SState
  | 0, s => s
  | f + 1, s =>
      if s.peek ≠ '\n' && !s.is_at_end then
        commentLoop f { s with current := s.current + 1 }
      else s

/-- `Scanner::scan_token`. -/
def scan_token (s : SState) : SState × Option ScanErr :=
  let (s, c) := s.advance
  if c = ' ' || c = '\r' || c = '\t' then (s, none)
  else if c = '\n' then ({ s with line := s.line + 1 }, none)
  else if c = '(' then (s.add_token .leftParen none, none)
  else if c = ')' then (s.add_token .rightParen none, none)
  else if c = '{' then (s.add_token .leftBrace none, none)
  else if c = '}' then (s.add_token .rightBrace none, none)
  else if c = ',' then (s.add_token .comma none, none)
  else if c = '.' then (s.add_token .dot none, none)
  else if c = '-' then (s.add_token .minus none, none)
  else if c = '+' then (s.add_token .plus none, none)
  else if c = ';' then (s.add_token .semicolon none, none)
  else if c = '*' then (s.add_token .star none, none)
  else if c = '!' then
    let (s, tt) := s.next_match_else '=' .bangEqual .bang
    (s.add_token tt none, none)
  else if c = '=' then
    let (s, tt) := s.next_match_else '=' .equalEqual .equal
    (s.add_token tt none, none)
  else if c = '<' then
    let (s, tt) := s.next_match_else '=' .lessEqual .less
    (s.add_token tt none, none)
  else if c = '>' then
    let (s, tt) := s.next_match_else '=' .greaterEqual .greater
    (s.add_token tt none, none)
  else if c = '/' then
    let (s, m) := s.next_match '/'
    if m then (commentLoop (s.source_len + 1) s, none)
    else (s.add_token .slash none, none)
  else if c = '"' then handle_string_literal s
  else if is_digit c then handle_number_literal s
  else if is_alpha c then handle_identifier s
  else (s, some (.unexpectedChar s.line))

/-- The loop of `Scanner::scan_tokens` (each `scan_token` consumes at
least one character, so `source_len + 1` fuel always completes it). -/
def scanLoop : Nat → SState → List ScanErr → SState × List ScanErr
  | 0, s, errs => (s, errs)
  | f + 1, s, errs =>
      if s.is_at_end then (s, errs)
      else
        match scan_token { s with start := s.current } with
        | (s1, none) => scanLoop f s1 errs
        | (s1, some e) => scanLoop f s1 (errs ++ [e])

/-- `Scanner::scan_tokens`: scan to the end, append the Eof token, and
return the errors (the token list is the scanner's state; the source
returns `Err(errors)` when any were collected). -/
def scan_tokens (source : List Char) : List Token × List ScanErr :=
  let s := SState.new source
  let (s, errs) := scanLoop (s.source_len + 1) s []
  let s := { s with tokens := s.tokens ++ [(⟨.eof, "", s.line, none⟩ : Token)] }
  (s.tokens, errs)

/-! ## Static-binding reference for the resolver

A spec-side rendering of section 4.3: a context is the stack of
enclosing scopes (innermost first), each a list of declared names; a
`Variable`/`Assign` occurrence is bound at the distance of the nearest
enclosing scope containing its name, or unbound (`none`, "treated as
global at runtime") when no enclosing scope contains it.  `specStmt`
collects, for every `Variable`/`Assign` node in traversal order, its
identity and binding; declarations extend the innermost scope following
the spec's declare/resolve-initializer/define ordering. -/

abbrev Ctx := List (List String)

def bindDepth (ctx : Ctx) (name : String) : Option Nat :=
  depthOf (fun fr => decide (name ∈ fr)) ctx

def addName (ctx : Ctx) (name : String) : Ctx :=
  match ctx with
  | [] => []
  | fr :: rest => (if name ∈ fr then fr else fr ++ [name]) :: rest

def declParams (ctx : Ctx) (params : List Token) : Ctx :=
  params.foldl (fun c p => addName c p.lexeme) ctx

mutual

def specStmt (ctx : Ctx) : Stmt → Ctx × List (Nat × Option Nat)
  | .Block ss =>
      ((specStmts ([] :: ctx) ss).1.tail, (specStmts ([] :: ctx) ss).2)
  | .Expr e => (ctx, specExpr ctx e)
  | .Fun name params body =>
      ((specStmts (declParams ([] :: addName ctx name.lexeme) params) body).1.tail,
        (specStmts (declParams ([] :: addName ctx name.lexeme) params) body).2)
  | .If cond thenB elseB =>
      match elseB with
      | some eb =>
          ((specStmt (specStmt ctx thenB).1 eb).1,
            specExpr ctx cond ++ (specStmt ctx thenB).2
              ++ (specStmt (specStmt ctx thenB).1 eb).2)
      | none =>
          ((specStmt ctx thenB).1, specExpr ctx cond ++ (specStmt ctx thenB).2)
  | .Print e => (ctx, specExpr ctx e)
  | .Return _ value =>
      match value with
      | some v => (ctx, specExpr ctx v)
      | none => (ctx, [])
  | .Var name init =>
      match init with
      | some i =>
          (addName ctx name.lexeme, specExpr (addName ctx name.lexeme) i)
      | none => (addName ctx name.lexeme, [])
  | .While cond body =>
      ((specStmt ctx body).1, specExpr ctx cond ++ (specStmt ctx body).2)

def specStmts (ctx : Ctx) : List Stmt → Ctx × List (Nat × Option Nat)
  | [] => (ctx, [])
  | s :: rest =>
      ((specStmts (specStmt ctx s).1 rest).1,
        (specStmt ctx s).2 ++ (specStmts (specStmt ctx s).1 rest).2)

def specExpr (ctx : Ctx) : Expr → List (Nat × Option Nat)
  | .Assign name value sid => specExpr ctx value ++ [(sid, bindDepth ctx name.lexeme)]
  | .Binary l _ r => specExpr ctx l ++ specExpr ctx r
  | .Call c _ args => specExpr ctx c ++ specExprs ctx args
  | .Grouping e => specExpr ctx e
  | .Literal _ => []
  | .Logical l _ r => specExpr ctx l ++ specExpr ctx r
  | .Unary _ r => specExpr ctx r
  | .Variable name sid => [(sid, bindDepth ctx name.lexeme)]

def specExprs (ctx : Ctx) : List Expr → List (Nat × Option Nat)
  | [] => []
  | e :: rest => specExpr ctx e ++ specExprs ctx rest

end

/-- The bindings of a whole program.  The initial context has one empty
scope: the scope `Resolver::resolve` pushes around the top level. -/
def specProgram (stmts : List Stmt) : List (Nat × Option Nat) :=
  (specStmts [[]] stmts).2

/-- Replaying binding entries into a locals map: a bound occurrence is
inserted under its identity, an unbound one leaves no entry. -/
def applyEntries (L : List (Nat × Nat)) : List (Nat × Option Nat) → List (Nat × Nat)
  | [] => L
  | (sid, some d) :: rest => applyEntries (upsert L sid d) rest
  | (_, none) :: rest => applyEntries L rest

/-! ## Map and binding lemmas -/

theorem alookup_upsert {α β : Type} [DecidableEq α] (m : List (α × β)) (k : α) (v : β)
    (x : α) : alookup (upsert m k v) x = if x = k then some v else alookup m x := by
  induction m with
  | nil =>
      by_cases h : x = k <;> simp [upsert, alookup, h]
  | cons hd tl ih =>
      obtain ⟨k0, v0⟩ := hd
      by_cases h0 : k = k0
      · subst h0
        by_cases h : x = k <;> simp [upsert, alookup, h]
      · by_cases h : x = k0
        · have hxk : ¬ x = k := by
            rw [h]
            intro hh
            exact h0 hh.symm
          simp [upsert, alookup, h0, h, hxk, Ne.symm h0]
        · simp [upsert, alookup, h0, h, ih]

theorem hasKey_upsert_self {α β : Type} [DecidableEq α] (m : List (α × β)) (k : α)
    (v : β) : hasKey (upsert m k v) k = true := by
  simp [hasKey, alookup_upsert]

theorem alookup_isSome_eq {α β : Type} [DecidableEq α] (m : List (α × β)) (k : α) :
    (alookup m k).isSome = decide (k ∈ m.map Prod.fst) := by
  induction m with
  | nil => simp [alookup]
  | cons hd tl ih =>
      obtain ⟨k0, v0⟩ := hd
      by_cases h : k = k0 <;> simp [alookup, h, ih]

theorem hasKey_eq_decide {α β : Type} [DecidableEq α] (m : List (α × β)) (k : α) :
    hasKey m k = decide (k ∈ m.map Prod.fst) := by
  simpa [hasKey] using alookup_isSome_eq m k

theorem keys_upsert {α β : Type} [DecidableEq α] (m : List (α × β)) (k : α) (v : β) :
    (upsert m k v).map Prod.fst =
      if k ∈ m.map Prod.fst then m.map Prod.fst else m.map Prod.fst ++ [k] := by
  induction m with
  | nil => simp [upsert]
  | cons hd tl ih =>
      obtain ⟨k0, v0⟩ := hd
      by_cases h : k = k0
      · simp [upsert, h]
      · by_cases h2 : k ∈ tl.map Prod.fst <;> simp [upsert, h, ih, h2]

theorem depthOf_congr {α : Type} {p q : α → Bool} (hpq : ∀ a, p a = q a) :
    ∀ l : List α, depthOf p l = depthOf q l := by
  intro l
  induction l with
  | nil => rfl
  | cons a l ih => simp [depthOf, hpq a, ih]

theorem depthOf_map {α γ : Type} (p : γ → Bool) (f : α → γ) :
    ∀ l : List α, depthOf p (l.map f) = depthOf (fun a => p (f a)) l := by
  intro l
  induction l with
  | nil => rfl
  | cons a l ih => simp [depthOf, ih]

/-- The scope stacks seen as stacks of declared-name lists. -/
def keysOf (scopes : List (List (String × Bool))) : List (List String) :=
  scopes.map (fun sc => sc.map Prod.fst)

theorem applyEntries_append (es1 es2 : List (Nat × Option Nat)) :
    ∀ L, applyEntries L (es1 ++ es2) = applyEntries (applyEntries L es1) es2 := by
  induction es1 with
  | nil => intro L; rfl
  | cons e rest ih =>
      intro L
      obtain ⟨sid, b⟩ := e
      cases b <;> simp [applyEntries, ih]

theorem alookup_applyEntries_of_notMem (sid : Nat) :
    ∀ (es : List (Nat × Option Nat)) (L : List (Nat × Nat)),
      sid ∉ es.map Prod.fst → alookup (applyEntries L es) sid = alookup L sid := by
  intro es
  induction es with
  | nil => intro L _; rfl
  | cons e rest ih =>
      intro L h
      obtain ⟨k, b⟩ := e
      rw [List.map_cons] at h
      simp only [List.mem_cons, not_or] at h
      cases b with
      | none => exact ih L h.2
      | some d =>
          rw [applyEntries, ih _ h.2, alookup_upsert]
          simp [h.1]

theorem alookup_applyEntries_of_mem (sid : Nat) (b : Option Nat) :
    ∀ (es : List (Nat × Option Nat)) (L : List (Nat × Nat)),
      (sid, b) ∈ es → (es.map Prod.fst).Nodup →
      alookup (applyEntries L es) sid =
        (match b with | some d => some d | none => alookup L sid) := by
  intro es
  induction es with
  | nil => intro L h _; cases h
  | cons e rest ih =>
      intro L hmem hnd
      obtain ⟨k, b0⟩ := e
      rw [List.map_cons, List.nodup_cons] at hnd
      rcases List.mem_cons.mp hmem with heq | htl
      · obtain ⟨rfl, rfl⟩ := (Prod.mk.injEq _ _ _ _).mp heq
        cases b with
        | none =>
            rw [applyEntries]
            simpa using alookup_applyEntries_of_notMem sid rest L hnd.1
        | some d =>
            rw [applyEntries, alookup_applyEntries_of_notMem sid rest _ hnd.1,
              alookup_upsert]
            simp
      · have hsidk : sid ≠ k := by
          intro hh
          subst hh
          exact hnd.1 (List.mem_map.mpr ⟨(sid, b), htl, rfl⟩)
        cases b0 with
        | none =>
            rw [applyEntries]
            exact ih L htl hnd.2
        | some d =>
            rw [applyEntries]
            rw [ih (upsert L k d) htl hnd.2]
            cases b with
            | some d2 => rfl
            | none => simp [alookup_upsert, hsidk]

/-! ## The resolver computes the static bindings -/

theorem andThen_ok {step : RState × Option ResolverError}
    {k : RState → RState × Option ResolverError} {r' : RState}
    (h : andThen step k = (r', none)) :
    ∃ r1, step = (r1, none) ∧ k r1 = (r', none) := by
  rcases step with ⟨r1, e1⟩
  cases e1 with
  | none => exact ⟨r1, rfl, h⟩
  | some e => simp [andThen] at h

theorem keysOf_tail (l : List (List (String × Bool))) :
    keysOf l.tail = (keysOf l).tail := by
  cases l <;> rfl

@[simp] theorem keysOf_nil : keysOf [] = [] := rfl

@[simp] theorem keysOf_cons (sc : List (String × Bool))
    (rest : List (List (String × Bool))) :
    keysOf (sc :: rest) = sc.map Prod.fst :: keysOf rest := rfl

@[simp] theorem pushScope_scopes (r : RState) :
    (pushScope r).scopes = [] :: r.scopes := rfl

@[simp] theorem pushScope_locals (r : RState) :
    (pushScope r).locals = r.locals := rfl

@[simp] theorem pushScope_current (r : RState) :
    (pushScope r).current_fun = r.current_fun := rfl

@[simp] theorem popScope_scopes (r : RState) :
    (popScope r).scopes = r.scopes.tail := rfl

@[simp] theorem popScope_locals (r : RState) :
    (popScope r).locals = r.locals := rfl

@[simp] theorem popScope_current (r : RState) :
    (popScope r).current_fun = r.current_fun := rfl

theorem addName_idem (ctx : Ctx) (name : String) :
    addName (addName ctx name) name = addName ctx name := by
  cases ctx with
  | nil => rfl
  | cons fr rest =>
      by_cases h : name ∈ fr
      · simp [addName, h]
      · simp [addName, h]

theorem resolveLocal_spec (r : RState) (sid : Nat) (name : String) :
    (resolveLocal r sid name).scopes = r.scopes ∧
    (resolveLocal r sid name).current_fun = r.current_fun ∧
    (resolveLocal r sid name).locals =
      applyEntries r.locals [(sid, bindDepth (keysOf r.scopes) name)] := by
  have hdepth : depthOf (fun sc => hasKey sc name) r.scopes
      = bindDepth (keysOf r.scopes) name := by
    rw [bindDepth, keysOf, depthOf_map]
    exact depthOf_congr (fun sc => by rw [hasKey_eq_decide]) r.scopes
  cases hb : bindDepth (keysOf r.scopes) name with
  | some i =>
      rw [resolveLocal, hdepth, hb]
      exact ⟨rfl, rfl, rfl⟩
  | none =>
      rw [resolveLocal, hdepth, hb]
      exact ⟨rfl, rfl, rfl⟩

theorem declare_ok_spec (r : RState) (tok : Token) (r1 : RState)
    (h : declare r tok = (r1, none)) :
    keysOf r1.scopes = addName (keysOf r.scopes) tok.lexeme ∧
    r1.locals = r.locals ∧ r1.current_fun = r.current_fun := by
  cases hs : r.scopes with
  | nil =>
      simp only [declare, hs] at h
      injection h with h1 _
      subst h1
      simp [keysOf, hs, addName]
  | cons sc rest =>
      simp only [declare, hs] at h
      by_cases hk : hasKey sc tok.lexeme = true
      · simp [hk] at h
      · simp only [hk, if_false, if_neg hk] at h
        injection h with h1 _
        subst h1
        have hmem : tok.lexeme ∉ sc.map Prod.fst := by
          rw [hasKey_eq_decide] at hk
          simpa using hk
        simp [keysOf, hs, addName, keys_upsert, hmem]

theorem define_spec (r : RState) (tok : Token) :
    keysOf (define r tok).scopes = addName (keysOf r.scopes) tok.lexeme ∧
    (define r tok).locals = r.locals ∧
    (define r tok).current_fun = r.current_fun := by
  cases hs : r.scopes with
  | nil =>
      simp only [define, hs]
      simp [keysOf, hs, addName]
  | cons sc rest =>
      simp only [define, hs]
      by_cases hmem : tok.lexeme ∈ sc.map Prod.fst <;>
        simp [keysOf, hs, addName, keys_upsert, hmem]

theorem resolveParams_spec (ps : List Token) : ∀ (r r1 : RState),
    resolveParams r ps = (r1, none) →
    keysOf r1.scopes = declParams (keysOf r.scopes) ps ∧
    r1.locals = r.locals ∧ r1.current_fun = r.current_fun := by
  induction ps with
  | nil =>
      intro r r1 h
      simp only [resolveParams] at h
      injection h with h1 _
      subst h1
      exact ⟨rfl, rfl, rfl⟩
  | cons p rest ih =>
      intro r r1 h
      simp only [resolveParams] at h
      rcases hd : declare r p with ⟨ra, ed⟩
      rw [hd] at h
      cases ed with
      | some e =>
          injection h with _ h2
          exact Option.noConfusion h2
      | none =>
          obtain ⟨hk, hl, hc⟩ := declare_ok_spec r p ra hd
          obtain ⟨hk2, hl2, hc2⟩ := define_spec ra p
          obtain ⟨ihk, ihl, ihc⟩ := ih (define ra p) r1 h
          refine ⟨?_, ?_, ?_⟩
          · rw [ihk, hk2, hk, addName_idem]
            rfl
          · rw [ihl, hl2, hl]
          · rw [ihc, hc2, hc]


theorem resolveFunctionBody_spec (params : List Token)
    (kbody : RState → RState × Option ResolverError) (r r' : RState)
    (h : resolveFunctionBody r params kbody = (r', none)) :
    ∃ r1 r2, keysOf r1.scopes = declParams ([] :: keysOf r.scopes) params ∧
      r1.locals = r.locals ∧ kbody r1 = (r2, none) ∧
      r' = { popScope r2 with current_fun := r.current_fun } := by
  obtain ⟨r1, hp, h2⟩ := andThen_ok h
  obtain ⟨r2, hb, h3⟩ := andThen_ok h2
  obtain ⟨pk, pl, pc⟩ := resolveParams_spec params _ r1 hp
  injection h3 with h1 _
  exact ⟨r1, r2, by simpa using pk, by simpa using pl, hb, h1.symm⟩

mutual

theorem resolveStmt_spec (s : Stmt) : ∀ (r r' : RState),
    resolveStmt r s = (r', none) →
    keysOf r'.scopes = (specStmt (keysOf r.scopes) s).1 ∧
    r'.locals = applyEntries r.locals (specStmt (keysOf r.scopes) s).2 := by
  cases s with
  | Block ss =>
      intro r r' h
      simp only [resolveStmt] at h
      obtain ⟨r1, hh, h2⟩ := andThen_ok h
      injection h2 with h1 _
      subst h1
      obtain ⟨ihk, ihl⟩ := resolveStmts_spec ss (pushScope r) r1 hh
      simp only [pushScope_scopes, pushScope_locals, keysOf_cons,
        List.map_nil] at ihk ihl
      simp only [specStmt]
      constructor
      · rw [popScope_scopes, keysOf_tail, ihk]
      · rw [popScope_locals, ihl]
  | Expr e =>
      intro r r' h
      simp only [resolveStmt] at h
      obtain ⟨hsc, hl⟩ := resolveExpr_spec e r r' h
      simp only [specStmt]
      exact ⟨by rw [hsc], hl⟩
  | Fun name params body =>
      intro r r' h
      simp only [resolveStmt] at h
      obtain ⟨r1, hd, h2⟩ := andThen_ok h
      obtain ⟨hk1, hl1, hc1⟩ := declare_ok_spec r name r1 hd
      obtain ⟨hk2, hl2, hc2⟩ := define_spec r1 name
      obtain ⟨ra, rb, pk, pl, hb, hr2⟩ := resolveFunctionBody_spec params _ _ r' h2
      obtain ⟨bk, bl⟩ := resolveStmts_spec body ra rb hb
      subst hr2
      simp only [specStmt]
      constructor
      · dsimp only
        rw [popScope_scopes, keysOf_tail, bk, pk, hk2, hk1, addName_idem]
      · dsimp only
        rw [popScope_locals, bl, pl, hl2, hl1, pk, hk2, hk1, addName_idem]
  | If cond thenB elseB =>
      intro r r' h
      simp only [resolveStmt] at h
      obtain ⟨r1, hc, h2⟩ := andThen_ok h
      obtain ⟨r2, ht, h3⟩ := andThen_ok h2
      obtain ⟨hsc1, hl1⟩ := resolveExpr_spec cond r r1 hc
      obtain ⟨hk2, hl2⟩ := resolveStmt_spec thenB r1 r2 ht
      cases elseB with
      | none =>
          injection h3 with h1 _
          subst h1
          simp only [specStmt]
          constructor
          · rw [hk2, hsc1]
          · rw [hl2, hsc1, hl1, ← applyEntries_append]
      | some eb =>
          obtain ⟨hk3, hl3⟩ := resolveStmt_spec eb r2 r' h3
          simp only [specStmt]
          constructor
          · rw [hk3, hk2, hsc1]
          · rw [hl3, hl2, hk2, hl1, hsc1, applyEntries_append,
              applyEntries_append]
  | Print e =>
      intro r r' h
      simp only [resolveStmt] at h
      obtain ⟨hsc, hl⟩ := resolveExpr_spec e r r' h
      simp only [specStmt]
      exact ⟨by rw [hsc], hl⟩
  | Return keyword value =>
      intro r r' h
      rw [resolveStmt.eq_def] at h
      dsimp only at h
      cases hcf : r.current_fun with
      | none =>
          rw [hcf] at h
          simp at h
      | some ft =>
          rw [hcf] at h
          cases value with
          | some v =>
              obtain ⟨hsc, hl⟩ := resolveExpr_spec v r r' h
              simp only [specStmt]
              exact ⟨by rw [hsc], hl⟩
          | none =>
              injection h with h1 _
              subst h1
              simp [specStmt, applyEntries]
  | Var name init =>
      intro r r' h
      simp only [resolveStmt] at h
      obtain ⟨r1, hd, h2⟩ := andThen_ok h
      obtain ⟨hk1, hl1, hc1⟩ := declare_ok_spec r name r1 hd
      cases init with
      | some i =>
          obtain ⟨r2, he, h3⟩ := andThen_ok h2
          injection h3 with h1 _
          subst h1
          obtain ⟨hsc2, hl2⟩ := resolveExpr_spec i r1 r2 he
          obtain ⟨dk, dl, dc⟩ := define_spec r2 name
          simp only [specStmt]
          constructor
          · rw [dk, hsc2, hk1, addName_idem]
          · rw [dl, hl2, hk1, hl1]
      | none =>
          injection h2 with h1 _
          subst h1
          obtain ⟨dk, dl, dc⟩ := define_spec r1 name
          simp only [specStmt]
          constructor
          · rw [dk, hk1, addName_idem]
          · rw [dl, hl1]
            rfl
  | While cond body =>
      intro r r' h
      simp only [resolveStmt] at h
      obtain ⟨r1, hc, h2⟩ := andThen_ok h
      obtain ⟨hsc1, hl1⟩ := resolveExpr_spec cond r r1 hc
      obtain ⟨hk2, hl2⟩ := resolveStmt_spec body r1 r' h2
      simp only [specStmt]
      constructor
      · rw [hk2, hsc1]
      · rw [hl2, hsc1, hl1, ← applyEntries_append]

termination_by (sizeOf s, 3)

theorem resolveStmts_spec (ss : List Stmt) : ∀ (r r' : RState),
    resolveStmts r ss = (r', none) →
    keysOf r'.scopes = (specStmts (keysOf r.scopes) ss).1 ∧
    r'.locals = applyEntries r.locals (specStmts (keysOf r.scopes) ss).2 := by
  cases ss with
  | nil =>
      intro r r' h
      simp only [resolveStmts] at h
      injection h with h1 _
      subst h1
      simp [specStmts, applyEntries]
  | cons s rest =>
      intro r r' h
      simp only [resolveStmts] at h
      obtain ⟨r1, h1, h2⟩ := andThen_ok h
      obtain ⟨hk1, hl1⟩ := resolveStmt_spec s r r1 h1
      obtain ⟨hk2, hl2⟩ := resolveStmts_spec rest r1 r' h2
      simp only [specStmts]
      constructor
      · rw [hk2, hk1]
      · rw [hl2, hl1, hk1, ← applyEntries_append]

termination_by (sizeOf ss, 2)

theorem resolveExpr_spec (e : Expr) : ∀ (r r' : RState),
    resolveExpr r e = (r', none) →
    r'.scopes = r.scopes ∧
    r'.locals = applyEntries r.locals (specExpr (keysOf r.scopes) e) := by
  cases e with
  | Assign name value sid =>
      intro r r' h
      simp only [resolveExpr] at h
      obtain ⟨r1, hv, h2⟩ := andThen_ok h
      injection h2 with h1 _
      subst h1
      obtain ⟨hsc, hl⟩ := resolveExpr_spec value r r1 hv
      obtain ⟨lk, lc, ll⟩ := resolveLocal_spec r1 sid name.lexeme
      simp only [specExpr]
      constructor
      · rw [lk, hsc]
      · rw [ll, hl, hsc, ← applyEntries_append]
  | Binary l op rr =>
      intro r r' h
      simp only [resolveExpr] at h
      obtain ⟨r1, h1, h2⟩ := andThen_ok h
      obtain ⟨s1, l1⟩ := resolveExpr_spec l r r1 h1
      obtain ⟨s2, l2⟩ := resolveExpr_spec rr r1 r' h2
      simp only [specExpr]
      exact ⟨by rw [s2, s1], by rw [l2, l1, s1, ← applyEntries_append]⟩
  | Call callee paren args =>
      intro r r' h
      simp only [resolveExpr] at h
      obtain ⟨r1, h1, h2⟩ := andThen_ok h
      obtain ⟨s1, l1⟩ := resolveExpr_spec callee r r1 h1
      obtain ⟨s2, l2⟩ := resolveExprs_spec args r1 r' h2
      simp only [specExpr]
      exact ⟨by rw [s2, s1], by rw [l2, l1, s1, ← applyEntries_append]⟩
  | Grouping e =>
      intro r r' h
      simp only [resolveExpr] at h
      obtain ⟨hsc, hl⟩ := resolveExpr_spec e r r' h
      simp only [specExpr]
      exact ⟨hsc, hl⟩
  | Literal lit =>
      intro r r' h
      simp only [resolveExpr] at h
      injection h with h1 _
      subst h1
      simp [specExpr, applyEntries]
  | Logical l op rr =>
      intro r r' h
      simp only [resolveExpr] at h
      obtain ⟨r1, h1, h2⟩ := andThen_ok h
      obtain ⟨s1, l1⟩ := resolveExpr_spec l r r1 h1
      obtain ⟨s2, l2⟩ := resolveExpr_spec rr r1 r' h2
      simp only [specExpr]
      exact ⟨by rw [s2, s1], by rw [l2, l1, s1, ← applyEntries_append]⟩
  | Unary op rr =>
      intro r r' h
      simp only [resolveExpr] at h
      obtain ⟨hsc, hl⟩ := resolveExpr_spec rr r r' h
      simp only [specExpr]
      exact ⟨hsc, hl⟩
  | Variable name sid =>
      intro r r' h
      simp only [resolveExpr] at h
      obtain ⟨lk, lc, ll⟩ := resolveLocal_spec r sid name.lexeme
      cases hs : r.scopes with
      | nil =>
          rw [hs] at h
          dsimp only at h
          injection h with h1 _
          subst h1
          simp only [specExpr]
          exact ⟨lk.trans hs, by rw [ll, hs]⟩
      | cons sc rest =>
          rw [hs] at h
          dsimp only at h
          by_cases hf : alookup sc name.lexeme = some false
          · rw [if_pos hf] at h
            simp at h
          · rw [if_neg hf] at h
            injection h with h1 _
            subst h1
            simp only [specExpr]
            exact ⟨lk.trans hs, by rw [ll, hs]⟩

termination_by (sizeOf e, 1)

theorem resolveExprs_spec (es : List Expr) : ∀ (r r' : RState),
    resolveExprs r es = (r', none) →
    r'.scopes = r.scopes ∧
    r'.locals = applyEntries r.locals (specExprs (keysOf r.scopes) es) := by
  cases es with
  | nil =>
      intro r r' h
      simp only [resolveExprs] at h
      injection h with h1 _
      subst h1
      simp [specExprs, applyEntries]
  | cons e rest =>
      intro r r' h
      simp only [resolveExprs] at h
      obtain ⟨r1, h1, h2⟩ := andThen_ok h
      obtain ⟨s1, l1⟩ := resolveExpr_spec e r r1 h1
      obtain ⟨s2, l2⟩ := resolveExprs_spec rest r1 r' h2
      simp only [specExprs]
      exact ⟨by rw [s2, s1], by rw [l2, l1, s1, ← applyEntries_append]⟩
termination_by (sizeOf es, 1)

end

theorem resolveTop_ok (ss : List Stmt) : ∀ (r r' : RState),
    resolveTop r ss = (r', []) → resolveStmts r ss = (r', none) := by
  induction ss with
  | nil =>
      intro r r' h
      simp only [resolveTop] at h
      injection h with h1 _
      subst h1
      simp [resolveStmts]
  | cons s rest ih =>
      intro r r' h
      simp only [resolveTop] at h
      rcases h1 : resolveStmt r s with ⟨r1, e1⟩
      rw [h1] at h
      cases e1 with
      | none =>
          dsimp only at h
          simp only [resolveStmts, andThen, h1]
          exact ih r1 r' h
      | some e =>
          dsimp only at h
          simp at h

theorem resolveProgram_ok_locals (stmts : List Stmt) (rr : RState)
    (h : resolveProgram stmts = (rr, [])) :
    rr.locals = applyEntries [] (specProgram stmts) := by
  rcases ht : resolveTop (pushScope RState.new) stmts with ⟨r1, errs⟩
  rw [resolveProgram, ht] at h
  dsimp only at h
  injection h with h1 h2
  subst h1
  subst h2
  have hs := resolveTop_ok stmts _ _ ht
  obtain ⟨hk, hl⟩ := resolveStmts_spec stmts (pushScope RState.new) r1 hs
  rw [popScope_locals, hl]
  simp [RState.new, specProgram, keysOf]

/-- **C3** (amended).  After `Resolver::resolve` succeeds on a program,
the `locals` map holds exactly the statically bound references: every
`Variable`/`Assign` node whose name is declared in some enclosing
resolver scope at the node's position — *including the scope the
resolver pushes around the top level, so top-level declarations also
count* — is recorded under its identity with the nearest-scope
distance, and a node whose name no enclosing scope declares has no
entry (the evaluator then falls back to the unresolved-name lookup).
`specProgram` lists every node's identity with its static binding;
the node identities are assumed distinct, as the parser guarantees. -/
theorem resolver_records_exactly_bound_refs (stmts : List Stmt) (rr : RState)
    (h : resolveProgram stmts = (rr, []))
    (hnd : ((specProgram stmts).map Prod.fst).Nodup) :
    (∀ sid b, (sid, b) ∈ specProgram stmts → alookup rr.locals sid = b) ∧
    (∀ sid, sid ∉ (specProgram stmts).map Prod.fst →
      alookup rr.locals sid = none) := by
  have hl := resolveProgram_ok_locals stmts rr h
  constructor
  · intro sid b hmem
    rw [hl, alookup_applyEntries_of_mem sid b _ [] hmem hnd]
    cases b <;> rfl
  · intro sid hnm
    rw [hl, alookup_applyEntries_of_notMem sid _ [] hnm]
    rfl

/-! ## Concrete programs and end-to-end theorems -/

/-- Shorthand for an identifier token. -/
def ident (s : String) (line : Nat) : Token := ⟨.identifier, s, line, none⟩

/-- The observable outcome of a run: the `print` output and the
collected runtime errors (`none` when the resolver rejected the
program before any code ran). -/
def runOutput (stmts : List Stmt) (fuel : Nat) : Option (List String × List IErr) :=
  match interpRun stmts fuel with
  | .ok (st, errs) => some (st.output, errs)
  | .error _ => none

/-- The spec's Scenario-6 program:

```
var a = "global";
{
  fun show() { print a; }
  show();
  var a = "local";
  show();
}
```

The `a` inside `show` is node 0, the two `show` references are nodes
1 and 2. -/
def scenario6 : List Stmt :=
  [ .Var (ident "a" 1) (some (.Literal (.String "global"))),
    .Block
      [ .Fun (ident "show" 3) [] [ .Print (.Variable (ident "a" 3) 0) ],
        .Expr (.Call (.Variable (ident "show" 4) 1) ⟨.rightParen, ")", 4, none⟩ []),
        .Var (ident "a" 5) (some (.Literal (.String "local"))),
        .Expr (.Call (.Variable (ident "show" 6) 2) ⟨.rightParen, ")", 6, none⟩ []) ] ]

/-- **C1**: running the Scenario-6 program prints `global` and then
`global` again, with no errors.  The reference to `a` inside `show` is
bound at resolution time to the scope enclosing the block (hop
count 2 recorded for node 0: call frame → block → top level), so the
later `var a = "local"` inside the block does not change what the
second call prints. -/
theorem c1_scenario6_prints_global_twice :
    runOutput scenario6 100 = some (["global", "global"], []) ∧
    alookup (resolveProgram scenario6).1.locals 0 = some 2 := by
  constructor <;> rfl

/-- The program `var a = 1 - "x"; print a;`: the initializer fails at
runtime, so `a` is never defined, yet `print a;` (node 0) still runs. -/
def hopSkipProg : List Stmt :=
  [ .Var (ident "a" 1)
      (some (.Binary (.Literal (.Number 1)) ⟨.minus, "-", 1, none⟩
        (.Literal (.String "x")))),
    .Print (.Variable (ident "a" 2) 0) ]

/-- **C2** (code bug): the resolver records hop count 0 for the `a` of
`print a;`, and the evaluator does reach that node — `Interpreter::run`
continues with the next top-level statement after the first one's
runtime error — but the environment at the recorded distance does not
contain `a` (the error skipped the `define`), so the depth-directed
lookup fails with "Undefined variable" instead of succeeding as the
hop-count-correctness claim requires. -/
theorem c2_hop_lookup_fails_after_skipped_define :
    alookup (resolveProgram hopSkipProg).1.locals 0 = some 0 ∧
    runOutput hopSkipProg 100 =
      some ([], [.rt 1 "Right operand must be a Number.",
                 .rt 2 "Undefined variable 'a'"]) := by
  constructor <;> rfl

/-- `var a = 1; print a;` — `a` is declared only at the top level,
which the spec treats as global; the reference in `print a;` is
node 0. -/
def globalRefProg : List Stmt :=
  [ .Var (ident "a" 1) (some (.Literal (.Number 1))),
    .Print (.Variable (ident "a" 2) 0) ]

/-- **C3** counterexample: the claim says a reference to a name
declared only at the top level has *no* entry in the locals map; the
resolver in fact records one (`Resolver::resolve` pushes a scope
around the top level, so top-level declarations are found by
`resolve_local`). -/
theorem c3_counterexample :
    alookup (resolveProgram globalRefProg).1.locals 0 ≠ none := by
  decide

/-- Witness for the amended C3 on `globalRefProg`: the theorem applied
at this program yields the recorded entry `(0, 0)` — `a` is bound in
the top-level resolver scope at distance 0. -/
theorem c3_witness :
    alookup (resolveProgram globalRefProg).1.locals 0 = some 0 :=
  (resolver_records_exactly_bound_refs globalRefProg
      (resolveProgram globalRefProg).1 (by decide) (by decide)).1
    0 (some 0) (by decide)

/-- **C4** (code bug): with two string operands, `-` and the other
operators the claim lists do not produce a runtime-error result —
`eval_binary_expr` reaches the source's `panic!` (whose message even
asserts the situation is an unreachable parse error, although
`"a" - "b"` parses fine), crashing the host process.  Two numbers
still produce the numeric result and a number/string mix the runtime
error, as the claim states for those cases. -/
theorem c4_binary_strings_panic :
    eval_binary_expr ⟨.minus, "-", 1, none⟩ (.string "a") (.string "b")
      = .error (.panicked "Invalid binary expression. This is an uncaught parse error") ∧
    eval_binary_expr ⟨.less, "<", 1, none⟩ (.string "a") (.string "b")
      = .error (.panicked "Invalid binary expression. This is an uncaught parse error") ∧
    eval_binary_expr ⟨.minus, "-", 1, none⟩ (.number 7) (.number 2)
      = .ok (some (.number 5)) ∧
    eval_binary_expr ⟨.minus, "-", 1, none⟩ (.number 7) (.string "b")
      = .error (.rt 1 "Right operand must be a Number.") := by
  refine ⟨rfl, rfl, ?_, rfl⟩
  show Except.ok (some (Value.number (7 - 2))) = .ok (some (.number 5))
  norm_num

/-- **C5**: for a `Logical` expression the left operand is always
evaluated first; for `or` a truthy left (and for `and` a falsey left)
is returned as is — the actual operand value, with the right operand
never evaluated and none of its effects performed (the final state is
the state after the left operand); otherwise the result is exactly the
evaluation of the right operand from that state; an error in the left
operand propagates; and truthiness holds of every value except `nil`
and `false`. -/
theorem c5_logical_short_circuit (f : Nat) (st : IState) (l r : Expr) (op : Token) :
    (∀ st1 lv, evalExpr f st l = (st1, .ok (some lv)) → op.token_type = .orKw →
        is_truthy lv = true →
        evalExpr (f + 1) st (.Logical l op r) = (st1, .ok (some lv))) ∧
    (∀ st1 lv, evalExpr f st l = (st1, .ok (some lv)) → op.token_type = .orKw →
        is_truthy lv = false →
        evalExpr (f + 1) st (.Logical l op r) = evalExpr f st1 r) ∧
    (∀ st1 lv, evalExpr f st l = (st1, .ok (some lv)) → op.token_type = .andKw →
        is_truthy lv = false →
        evalExpr (f + 1) st (.Logical l op r) = (st1, .ok (some lv))) ∧
    (∀ st1 lv, evalExpr f st l = (st1, .ok (some lv)) → op.token_type = .andKw →
        is_truthy lv = true →
        evalExpr (f + 1) st (.Logical l op r) = evalExpr f st1 r) ∧
    (∀ st1 err, evalExpr f st l = (st1, .error err) →
        evalExpr (f + 1) st (.Logical l op r) = (st1, .error err)) ∧
    (∀ v : Value, is_truthy v = false ↔ v = .nil ∨ v = .boolean false) := by
  refine ⟨?_, ?_, ?_, ?_, ?_, ?_⟩
  · intro st1 lv hl hop ht
    simp [evalExpr, hl, bindSome, hop, ht]
  · intro st1 lv hl hop ht
    simp [evalExpr, hl, bindSome, hop, ht]
  · intro st1 lv hl hop ht
    simp [evalExpr, hl, bindSome, hop, ht]
  · intro st1 lv hl hop ht
    simp [evalExpr, hl, bindSome, hop, ht]
  · intro st1 err hl
    simp [evalExpr, hl, bindSome]
  · intro v
    cases v with
    | boolean b => cases b <;> simp [is_truthy]
    | nil => simp [is_truthy]
    | number q => simp [is_truthy]
    | string s => simp [is_truthy]
    | function fn => simp [is_truthy]
    | nativeFunction nf => simp [is_truthy]

/-- Witness for C5: `"x" or nil` returns the string `"x"` itself (not
a coerced boolean) without evaluating the right operand. -/
theorem c5_witness :
    evalExpr 2 (initState []) (.Logical (.Literal (.String "x"))
        ⟨.orKw, "or", 1, none⟩ (.Literal .Nil)) =
      (initState [], .ok (some (.string "x"))) :=
  (c5_logical_short_circuit 1 (initState []) (.Literal (.String "x"))
      (.Literal .Nil) ⟨.orKw, "or", 1, none⟩).1
    (initState []) (.string "x") rfl rfl rfl

/-- **C6**: the generic `callable::call` dispatch — for a user function
or a native function, the invocation proceeds exactly when the arity
equals the number of evaluated arguments; on a mismatch it returns the
runtime error "Expected N arguments but got M." (N the arity, M the
argument count) with the interpreter state untouched, so the callee's
body is not executed. -/
theorem c6_call_arity (f : Nat) (st : IState) (paren : Token) (args : List Value) :
    (∀ fn : LoxFunction, fn.parameters.length ≠ args.length →
        doCall (f + 1) st paren (.function fn) args =
          (st, .error (.rt paren.line
            ("Expected " ++ toString fn.parameters.length ++
              " arguments but got " ++ toString args.length ++ ".")))) ∧
    (∀ fn : LoxFunction, fn.parameters.length = args.length →
        doCall (f + 1) st paren (.function fn) args = loxFunctionCall f st fn args) ∧
    (∀ nf : NativeFn, nf.arity ≠ args.length →
        doCall (f + 1) st paren (.nativeFunction nf) args =
          (st, .error (.rt paren.line
            ("Expected " ++ toString nf.arity ++
              " arguments but got " ++ toString args.length ++ ".")))) ∧
    (∀ nf : NativeFn, nf.arity = args.length →
        doCall (f + 1) st paren (.nativeFunction nf) args =
          (st, .ok (some (callNative st nf args)))) := by
  refine ⟨?_, ?_, ?_, ?_⟩ <;> intro g h <;> simp [doCall, h]

/-- Witness for C6: calling a zero-parameter user function with one
argument yields exactly "Expected 0 arguments but got 1." and leaves
the state unchanged. -/
theorem c6_witness :
    doCall 1 (initState []) ⟨.rightParen, ")", 4, none⟩
        (.function ⟨ident "g" 1, [], [], 0, none⟩) [.nil] =
      (initState [], .error (.rt 4 "Expected 0 arguments but got 1.")) :=
  (c6_call_arity 0 (initState []) ⟨.rightParen, ")", 4, none⟩ [.nil]).1
    ⟨ident "g" 1, [], [], 0, none⟩ (by decide)

/-- **C7** (code bug): `Scanner::is_at_end` is `current >= source_len - 1`,
off by one from the loop structure around it, so the final character of
the source is never scanned: a string literal whose closing quote is
the last character of the input — the four-character source `"ab"` —
is reported as an unterminated string, where the claim (and the rest of
`handle_string_literal`, whose explicit closing-quote `advance` shows
the intent) requires it to lex to a String token.  With anything after
the closing quote the same literal lexes fine. -/
theorem c7_closing_quote_at_end_reported_unterminated :
    scan_tokens ['"', 'a', 'b', '"'] =
      ([⟨.eof, "", 1, none⟩], [.unterminatedString 1]) ∧
    scan_tokens ['"', 'a', 'b', '"', ' '] =
      ([⟨.stringTok, "\"ab\"", 1, some (.String "ab")⟩, ⟨.eof, "", 1, none⟩], []) := by
  constructor <;> rfl

/-- The block program

```
{ var a =
    a; }
```

(declaration token on line 2, the offending reference on line 3): a
var declaration whose initializer reads the variable being declared,
in a local scope. -/
def selfInitProg : List Stmt :=
  [ .Block [ .Var (ident "a" 2) (some (.Variable (ident "a" 3) 0)) ] ]

/-- **C8** counterexample: the resolver error's message is not the
claimed "Cannot read local variable in its own initializer." — the
source misspells the last word. -/
theorem c8_counterexample :
    (resolveProgram selfInitProg).2.map ResolverError.msg ≠
      ["Cannot read local variable in its own initializer."] := by
  decide

/-- **C8** (amended): resolving the program produces exactly one
resolver error, reported at the line of the offending variable
reference (line 3, not the declaration's line 2), whose message is the
source's exact string "Cannot read local variable in its own
intializer." (sic — the source misspells "initializer"). -/
theorem c8_self_init_error :
    (resolveProgram selfInitProg).2 =
      [⟨3, "Cannot read local variable in its own intializer."⟩] := by
  rfl

/-- **C9**: when a call's arity will not match, the callee and all the
argument expressions have nevertheless already been fully evaluated,
left to right — the hypotheses chain the state through the callee
(`st` to `st1`) and the arguments (`st1` to `st2`), and the arity
error carries `st2`, so every side effect of those evaluations
(assignments, prints, nested calls) persists even though the call
itself fails. -/
theorem c9_call_args_evaluated_before_arity_error
    (f : Nat) (st st1 st2 : IState) (callee : Expr) (paren : Token)
    (args : List Expr) (fn : LoxFunction) (argv : List Value)
    (hc : evalExpr (f + 1) st callee = (st1, .ok (some (.function fn))))
    (ha : evalArgs (f + 1) st1 args = (st2, .ok argv))
    (hm : fn.parameters.length ≠ argv.length) :
    evalExpr (f + 1 + 1) st (.Call callee paren args) =
      (st2, .error (.rt paren.line
        ("Expected " ++ toString fn.parameters.length ++
          " arguments but got " ++ toString argv.length ++ "."))) := by
  conv_lhs => rw [evalExpr.eq_def]
  dsimp only
  rw [hc]
  dsimp only [bindRes]
  rw [ha]
  dsimp only [bindRes2]
  simp [doCall, hm]

/-- Witness for C9: a state whose global frame binds `g` to a
zero-parameter function; calling `g(nil)` evaluates the callee and the
argument and then fails with the arity error. -/
def c9State : IState :=
  { frames := [⟨[("g", .function ⟨ident "g" 1, [], [], 0, none⟩)], none⟩]
    env := some 0
    locals := []
    next_id := 1
    clock_time := 0
    output := [] }

/-- Witness for C9 at a concrete call `g(nil)`. -/
theorem c9_witness :
    evalExpr 3 c9State
        (.Call (.Variable (ident "g" 2) 5) ⟨.rightParen, ")", 2, none⟩
          [.Literal .Nil]) =
      (c9State, .error (.rt 2 "Expected 0 arguments but got 1.")) :=
  c9_call_args_evaluated_before_arity_error 1 c9State c9State c9State
    (.Variable (ident "g" 2) 5) ⟨.rightParen, ")", 2, none⟩
    [.Literal .Nil] ⟨ident "g" 1, [], [], 0, none⟩ [.nil]
    rfl rfl (by decide)

/-- **C10**: division is not guarded against a zero divisor — for any
two number operands a binary `/` returns a successful Number result
carrying the quotient and never a runtime error (the quotient value
itself is the host arithmetic's; the embedding computes it in `Rat`). -/
theorem c10_division_never_errors (tok : Token) (h : tok.token_type = .slash)
    (l r : Rat) :
    eval_binary_expr tok (.number l) (.number r) = .ok (some (.number (l / r))) := by
  rcases tok with ⟨tt, lex, line, lit⟩
  cases h
  rfl

/-- Witness for C10 at `1 / 0`: a successful Number result, no error. -/
theorem c10_witness :
    eval_binary_expr ⟨.slash, "/", 1, none⟩ (.number 1) (.number 0)
      = .ok (some (.number (1 / 0))) :=
  c10_division_never_errors ⟨.slash, "/", 1, none⟩ rfl 1 0

end RLox
